import Mathlib

/-!
Verification of `@mattriley/batch-image-resizer` (src/index.cjs, v1.4.5 variant).

JavaScript values are modelled shallowly:
* strings are lists of Unicode scalar values (`List Char`);
* machine numbers that stay integral (concurrency caps, counters, byte
  counts) are `Nat`; millisecond quantities that may be fractional
  (`process.hrtime` differences, latency averages) are `Rat`.
  `Math.ceil(cap * 0.7)` on an integral cap is modelled as
  `(7 * cap + 9) / 10` in `Nat`; this agrees with the IEEE-double
  computation for every cap that can occur here.
* a JavaScript `Set` of strings is modelled as a `List (List Char)`
  queried with `contains`;
* the filesystem is an association list from paths to a completeness flag,
  and effectful code is modelled as explicit state passing / traces.
-/

namespace BatchResizer

/-! ## Adaptive limiter (AIMD), src/index.cjs lines 592-635 -/

/-- Configuration handed to `createAdaptiveLimiter` (`min`, `max`,
`targetLatencyMs`, `lagThresholdMs`; `windowMs` only drives the timer). -/
structure LimiterCfg where
  minCap : ℕ
  maxCap : ℕ
  targetLatencyMs : ℚ
  lagThresholdMs : ℚ
deriving Repr, DecidableEq

/-- Per-window telemetry consumed by one timer tick: `lagMs` is
`elapsedMs - windowMs` (can be negative), `sumLatency`/`samples` are the
completed-task latency accumulator, `emfileCount` counts completions whose
error was classified transient. -/
structure WindowSample where
  lagMs : ℚ
  sumLatency : ℚ
  samples : ℕ
  emfileCount : ℕ
deriving Repr, DecidableEq

/-- `cap = Math.min(max, Math.max(min, initial))` (line 593). -/
def limiterInitialCap (minCap maxCap ini : ℕ) : ℕ :=
  Nat.min maxCap (Nat.max minCap ini)

/-- `const initial = Math.min(2, cfg.maxConcurrency)` (line 885). -/
def orchestratorInitial (maxConcurrency : ℕ) : ℕ :=
  Nat.min 2 maxConcurrency

/-- `Math.ceil(cap * 0.7)` for an integral cap (line 608): the ceiling of
`7 * cap / 10`, written with natural division. -/
def mdStep (cap : ℕ) : ℕ := (7 * cap + 9) / 10

/-- `const avg = samples ? (sumLatency / samples) : 0` (line 605). -/
def windowAvg (w : WindowSample) : ℚ :=
  if w.samples = 0 then 0 else w.sumLatency / (w.samples : ℚ)

/-- `(lagMs > lagThresholdMs) || (emfileCount > 0) || (avg > targetLatencyMs * 1.25)`
(line 606). -/
def backpressure (cfg : LimiterCfg) (w : WindowSample) : Bool :=
  (cfg.lagThresholdMs < w.lagMs) || (0 < w.emfileCount) ||
    (cfg.targetLatencyMs * (5 / 4 : ℚ) < windowAvg w)

/-- The cap update performed by one timer tick (lines 605-609). -/
def tick (cfg : LimiterCfg) (cap : ℕ) (w : WindowSample) : ℕ :=
  if backpressure cfg w then Nat.max cfg.minCap (mdStep cap)
  else if 0 < w.samples ∧ windowAvg w ≤ cfg.targetLatencyMs then
    Nat.min cfg.maxCap (cap + 1)
  else cap

/-- The cap after a sequence of ticks fed with the given window samples. -/
def runTicks (cfg : LimiterCfg) (cap : ℕ) (ws : List WindowSample) : ℕ :=
  ws.foldl (tick cfg) cap

/-! ## Strings and paths -/

/-- A JavaScript string, as its sequence of Unicode scalar values. -/
abbrev JStr := List Char

/-- ASCII lowercasing of one character; `String.prototype.toLowerCase`
restricted to the ASCII range (all extensions and format names the code
compares against are ASCII). -/
def asciiLowerChar (c : Char) : Char :=
  if 'A' ≤ c ∧ c ≤ 'Z' then Char.ofNat (c.toNat + 32) else c

/-- `s.toLowerCase()`. -/
def asciiLower (s : JStr) : JStr := s.map asciiLowerChar

/-- `path.basename`: the part of the path after the last `/`. -/
def basenameOf (p : JStr) : JStr :=
  (p.reverse.takeWhile (· ≠ '/')).reverse

/-- `s.lastIndexOf('.')` on a basename, as an optional index. -/
def lastDotIdx (s : JStr) : Option ℕ :=
  (s.reverse.indexOf? '.').map (fun j => s.length - 1 - j)

/-- `path.extname`: the suffix of the basename from its last dot, empty when
there is no dot or the only dot starts the basename. -/
def extnameOf (p : JStr) : JStr :=
  let b := basenameOf p
  match lastDotIdx b with
  | none => []
  | some 0 => []
  | some i => b.drop i

/-- `path.dirname`, for paths of the `dir/file` shape this code produces:
everything before the last `/`, or `.` when there is no `/`. -/
def dirnameOf (p : JStr) : JStr :=
  match p.reverse.dropWhile (· ≠ '/') with
  | [] => ['.']
  | _ :: rest => rest.reverse

/-- `path.join(dir, name)` for a directory with no trailing slash. -/
def pathJoin (dir name : JStr) : JStr := dir ++ '/' :: name

/-! ## Transient-error classifier, lines 441-447 -/

/-- The observable part of a JavaScript error: its optional `code` and its
`message`. -/
structure JsError where
  code : Option JStr
  message : JStr
deriving Repr, DecidableEq

/-- `haystack.includes(needle)`: substring containment. -/
def jsIncludes (haystack needle : JStr) : Bool :=
  decide (needle <:+: haystack)

/-- `isTransientResourceError` (lines 441-447): resource-exhaustion codes, or
a lowercased message containing one of the known substrings. -/
def isTransientResourceError (e : JsError) : Bool :=
  e.code = some "EMFILE".toList || e.code = some "ENFILE".toList ||
  e.code = some "ENOSPC".toList || e.code = some "ENOMEM".toList ||
  jsIncludes (asciiLower e.message) "emfile".toList ||
  jsIncludes (asciiLower e.message) "too many open files".toList ||
  jsIncludes (asciiLower e.message) "no space left".toList ||
  jsIncludes (asciiLower e.message) "out of memory".toList

/-! ## Extension allow-set and classification, lines 854-861, 714-731 -/

/-- `DEFAULT_ALLOW_EXT` (lines 375-378). -/
def DEFAULT_ALLOW_EXT : List JStr :=
  [".jpg".toList, ".jpeg".toList, ".png".toList, ".webp".toList,
   ".avif".toList, ".heic".toList, ".heif".toList, ".tif".toList,
   ".tiff".toList, ".bmp".toList, ".gif".toList]

/-- `lowerDot` (line 439): prepend a dot when missing, then lowercase. -/
def lowerDot (s : JStr) : JStr :=
  asciiLower (if s.head? = some '.' then s else '.' :: s)

/-- The allow-set construction of `resizeImages` (lines 854-861): start from
`includeExt.map(lowerDot)` or the default list, drop empty strings, lowercase,
then delete every `lowerDot` form of `excludeExt`. -/
def allowSetOf (includeExt excludeExt : Option (List JStr)) : List JStr :=
  let base := match includeExt with
    | some l => l.map lowerDot
    | none => DEFAULT_ALLOW_EXT
  let base := (base.filter (fun e => ¬ e.isEmpty)).map asciiLower
  match excludeExt with
  | none => base
  | some ex => base.filter (fun e => ¬ (ex.map lowerDot).contains e)

/-- The per-file classification of `processFileFactory` (lines 715-720): the
file is eligible for conversion iff its lowercased extension is in the
allow-set; otherwise it is copied/kept without an encode attempt. -/
def classifyPath (includeExt excludeExt : Option (List JStr)) (p : JStr) :
    Bool :=
  (allowSetOf includeExt excludeExt).contains (asciiLower (extnameOf p))

/-! ## Filename sanitization and UTF-8 truncation, lines 454-462 -/

/-- Characters matched by the class in `/[\\/:*?"<>|]+/g`. -/
def isIllegalChar (c : Char) : Bool :=
  c = '\\' || c = '/' || c = ':' || c = '*' || c = '?' ||
  c = '"' || c = '<' || c = '>' || c = '|'

/-- One pass of `s.replace(/[\\/:*?"<>|]+/g, '_')`: a maximal run of illegal
characters becomes a single `_`. The flag says whether the previous character
was part of such a run. -/
def sanitizeAux : Bool → JStr → JStr
  | _, [] => []
  | prevIllegal, c :: rest =>
    if isIllegalChar c then
      (if prevIllegal then [] else ['_']) ++ sanitizeAux true rest
    else c :: sanitizeAux false rest

/-- `sanitizeSeg` (line 462). -/
def sanitizeSeg (s : JStr) : JStr := sanitizeAux false s

/-- UTF-8 encoding of one scalar value, as byte values. -/
def utf8EncodeChar (c : Char) : List ℕ :=
  let n := c.toNat
  if n < 128 then [n]
  else if n < 2048 then [192 + n / 64, 128 + n % 64]
  else if n < 65536 then [224 + n / 4096, 128 + n / 64 % 64, 128 + n % 64]
  else [240 + n / 262144, 128 + n / 4096 % 64, 128 + n / 64 % 64, 128 + n % 64]

/-- `Buffer.from(str, 'utf8')`: the UTF-8 bytes of the string. -/
def utf8Encode (s : JStr) : List ℕ := (s.map utf8EncodeChar).flatten

/-- `(b & 0xC0) === 0x80` for a byte value: a UTF-8 continuation byte. -/
def isContByte (b : ℕ) : Bool := 128 ≤ b && b < 192

/-- The loop `while (end > 0 && (buf[end] & 0xC0) === 0x80) end--;`
(line 458): back off from a byte index to the nearest character boundary at
or below it. -/
def backoffEnd (buf : List ℕ) : ℕ → ℕ
  | 0 => 0
  | e + 1 => if isContByte (buf.getD (e + 1) 0) then backoffEnd buf e else e + 1

/-- UTF-8 decoding steps, processing one character per unit of fuel (each
character consumes at least one byte, so a fuel of the buffer length always
suffices); used only on prefixes of `utf8Encode` output cut at character
boundaries. -/
def utf8DecodeAux : ℕ → List ℕ → JStr
  | 0, _ => []
  | _ + 1, [] => []
  | fuel + 1, b :: rest =>
    if b < 128 then Char.ofNat b :: utf8DecodeAux fuel rest
    else if b < 224 then
      match rest with
      | b2 :: rest2 => Char.ofNat ((b - 192) * 64 + (b2 - 128)) :: utf8DecodeAux fuel rest2
      | [] => []
    else if b < 240 then
      match rest with
      | b2 :: b3 :: rest3 =>
        Char.ofNat ((b - 224) * 4096 + (b2 - 128) * 64 + (b3 - 128)) :: utf8DecodeAux fuel rest3
      | _ => []
    else
      match rest with
      | b2 :: b3 :: b4 :: rest4 =>
        Char.ofNat ((b - 240) * 262144 + (b2 - 128) * 4096 + (b3 - 128) * 64 + (b4 - 128)) ::
          utf8DecodeAux fuel rest4
      | _ => []

/-- UTF-8 decoding (`buf.toString('utf8')`) of a well-formed byte list. -/
def utf8Decode (l : List ℕ) : JStr := utf8DecodeAux l.length l

/-- `utf8Truncate` (lines 454-460): return the string unchanged when its
UTF-8 form fits in `maxBytes`, otherwise cut the byte buffer at the nearest
character boundary at or below `maxBytes` and decode it back. -/
def utf8Truncate (s : JStr) (maxBytes : ℕ) : JStr :=
  let buf := utf8Encode s
  if buf.length ≤ maxBytes then s
  else utf8Decode (buf.take (backoffEnd buf maxBytes))

/-! ## SHA-1, modelling `crypto.createHash('sha1')` (line 469)

Words are naturals reduced modulo `2 ^ 32` at every operation. -/

/-- 32-bit left rotation of a word. -/
def rotl32 (n x : ℕ) : ℕ := (x * 2 ^ n + x / 2 ^ (32 - n)) % 2 ^ 32

/-- `k` big-endian bytes of `n`. -/
def beBytes (k n : ℕ) : List ℕ :=
  ((List.range k).reverse).map (fun i => n / 2 ^ (8 * i) % 256)

/-- SHA-1 padding: append `0x80`, zeros to 56 mod 64, then the bit length as
8 big-endian bytes. -/
def sha1Pad (msg : List ℕ) : List ℕ :=
  let z := (119 - msg.length % 64) % 64
  msg ++ 128 :: List.replicate z 0 ++ beBytes 8 (8 * msg.length)

/-- Big-endian 32-bit words from groups of four bytes. -/
def toWords : List ℕ → List ℕ
  | b0 :: b1 :: b2 :: b3 :: rest => (((b0 * 256 + b1) * 256 + b2) * 256 + b3) :: toWords rest
  | _ => []

/-- Split a byte list into 64-byte blocks, with fuel bounding the number of
blocks (each nonempty step consumes at least one byte, so a fuel of the
list length always suffices). -/
def chunks64Aux : ℕ → List ℕ → List (List ℕ)
  | 0, _ => []
  | _ + 1, [] => []
  | fuel + 1, l => l.take 64 :: chunks64Aux fuel (l.drop 64)

/-- Split a byte list into 64-byte blocks. -/
def chunks64 (l : List ℕ) : List (List ℕ) := chunks64Aux l.length l

/-- Message-schedule extension from 16 to 80 words. -/
def sha1Schedule (w16 : List ℕ) : List ℕ :=
  (List.range 64).foldl
    (fun ws _ =>
      let n := ws.length
      ws ++ [rotl32 1 ((ws.getD (n - 3) 0) ^^^ (ws.getD (n - 8) 0) ^^^
        (ws.getD (n - 14) 0) ^^^ (ws.getD (n - 16) 0))])
    w16

/-- The round function for round `t`. -/
def sha1F (t b c d : ℕ) : ℕ :=
  if t < 20 then (b &&& c) ||| ((4294967295 ^^^ b) &&& d)
  else if t < 40 then b ^^^ c ^^^ d
  else if t < 60 then (b &&& c) ||| (b &&& d) ||| (c &&& d)
  else b ^^^ c ^^^ d

/-- The round constant for round `t`. -/
def sha1K (t : ℕ) : ℕ :=
  if t < 20 then 1518500249
  else if t < 40 then 1859775393
  else if t < 60 then 2400959708
  else 3395469782

/-- One SHA-1 round on the five-word state. -/
def sha1Round (st : ℕ × ℕ × ℕ × ℕ × ℕ) (tw : ℕ × ℕ) : ℕ × ℕ × ℕ × ℕ × ℕ :=
  let (a, b, c, d, e) := st
  let (t, w) := tw
  ((rotl32 5 a + sha1F t b c d + e + sha1K t + w) % 2 ^ 32,
    a, rotl32 30 b, c, d)

/-- Process one 64-byte block. -/
def sha1Block (h : ℕ × ℕ × ℕ × ℕ × ℕ) (block : List ℕ) : ℕ × ℕ × ℕ × ℕ × ℕ :=
  let (h0, h1, h2, h3, h4) := h
  let (a, b, c, d, e) := ((sha1Schedule (toWords block)).enum).foldl sha1Round h
  ((h0 + a) % 2 ^ 32, (h1 + b) % 2 ^ 32, (h2 + c) % 2 ^ 32,
    (h3 + d) % 2 ^ 32, (h4 + e) % 2 ^ 32)

/-- The 20 SHA-1 digest bytes of a byte message. -/
def sha1Bytes (msg : List ℕ) : List ℕ :=
  let init : ℕ × ℕ × ℕ × ℕ × ℕ :=
    (1732584193, 4023233417, 2562383102, 271733878, 3285377520)
  let (h0, h1, h2, h3, h4) := (chunks64 (sha1Pad msg)).foldl sha1Block init
  beBytes 4 h0 ++ beBytes 4 h1 ++ beBytes 4 h2 ++ beBytes 4 h3 ++ beBytes 4 h4

/-- A lowercase hexadecimal digit character. -/
def hexDigitChar (n : ℕ) : Char :=
  if n < 10 then Char.ofNat (48 + n) else Char.ofNat (87 + n)

/-- The lowercase hex rendering of a byte list (`digest('hex')`). -/
def bytesToHex (bs : List ℕ) : JStr :=
  (bs.map (fun b => [hexDigitChar (b / 16), hexDigitChar (b % 16)])).flatten

/-- `crypto.createHash('sha1').update(s).digest('hex')` for a string `s`
(Node hashes the UTF-8 bytes). -/
def sha1Hex (s : JStr) : JStr := bytesToHex (sha1Bytes (utf8Encode s))

/-! ## Flatten-mode name resolver, lines 463-489 -/

/-- The two flatten naming strategies (`cfg.flattenStrategy`). -/
inductive FlattenStrategy
  | hash
  | path
deriving Repr, DecidableEq

/-- The argument object of `makeFlatName`. -/
structure FlatNameArgs where
  relDir : JStr
  base : JStr
  outExt : JStr
  strategy : FlattenStrategy
  sep : JStr
  maxBytes : ℕ
deriving Repr, DecidableEq

/-- `relDir.split(path.sep)` with `path.sep = '/'`. -/
def splitSlash (s : JStr) : List JStr :=
  s.foldr
    (fun c acc =>
      match acc with
      | [] => if c = '/' then [[], []] else [[c]]
      | g :: gs => if c = '/' then [] :: g :: gs else (c :: g) :: gs)
    [[]]

/-- The first eight hex characters of the SHA-1 digest of
`relDir + "/" + base` (line 469); `String(relDir || '')` equals `relDir`
for a string input. -/
def hash8 (relDir base : JStr) : JStr :=
  (sha1Hex (relDir ++ '/' :: base)).take 8

/-- The raw flat name before sanitization and truncation (lines 464-471). -/
def rawFlatName (a : FlatNameArgs) : JStr :=
  match a.strategy with
  | .path =>
    let pathPart :=
      if a.relDir.isEmpty then []
      else List.intercalate a.sep
        (((splitSlash a.relDir).filter (fun g => ¬ g.isEmpty)).map sanitizeSeg)
    if pathPart.isEmpty then a.base else pathPart ++ a.sep ++ a.base
  | .hash => a.base ++ '~' :: hash8 a.relDir a.base

/-- The final name base: sanitized then truncated to
`Math.max(20, maxBytes)` bytes (lines 472-473). -/
def flatNameBase (a : FlatNameArgs) : JStr :=
  utf8Truncate (sanitizeSeg (rawFlatName a)) (Nat.max 20 a.maxBytes)

/-- `makeFlatName` (lines 463-475). -/
def makeFlatName (a : FlatNameArgs) : JStr := flatNameBase a ++ a.outExt

/-! ## Collision probing (`uniquify`, lines 477-489)

The filesystem seen by `exists` is a list of present paths; the unbounded
`while (true)` probe loop is modelled with an explicit fuel argument. -/

/-- The set of paths that exist on disk. -/
structure DiskFs where
  present : List JStr
deriving Repr, DecidableEq

/-- `await exists(p)`. -/
def fsHas (fs : DiskFs) (p : JStr) : Bool := fs.present.contains p

/-- `filename.slice(0, dot)` and `filename.slice(dot)` around
`filename.lastIndexOf('.')` (lines 480-482). -/
def stemAndExt (filename : JStr) : JStr × JStr :=
  match lastDotIdx filename with
  | none => (filename, [])
  | some i => (filename.take i, filename.drop i)

/-- The `i`-th probe candidate `` `${stem}~${i}${ext}` `` (line 485). -/
def probeName (stem ext : JStr) (i : ℕ) : JStr :=
  stem ++ '~' :: (Nat.repr i).toList ++ ext

/-- The probe loop of `uniquify` from index `i`, with fuel bounding the
number of iterations of the source's unbounded loop. -/
def uniquifyAux (fs : DiskFs) (destDir stem ext : JStr) :
    ℕ → ℕ → Option JStr
  | 0, _ => none
  | fuel + 1, i =>
    let next := pathJoin destDir (probeName stem ext i)
    if fsHas fs next then uniquifyAux fs destDir stem ext fuel (i + 1)
    else some next

/-- `uniquify` (lines 477-489): return the joined path when free, otherwise
probe `stem~1.ext`, `stem~2.ext`, … -/
def uniquify (fs : DiskFs) (destDir filename : JStr) (fuel : ℕ) :
    Option JStr :=
  let candidate := pathJoin destDir filename
  if fsHas fs candidate then
    let (stem, ext) := stemAndExt filename
    uniquifyAux fs destDir stem ext fuel 1
  else some candidate

/-! ## Atomic writer (`doEncode`, lines 760-778)

A filesystem is an association list from paths to a completeness flag:
`false` marks a file that is being written (zero-byte or partial), `true`
a fully written one. `doEncode` is modelled as the list of filesystem
states an observer could see, in order, together with the outcome. -/

/-- Filesystem contents: path paired with whether the file is complete. -/
abbrev WriteFs := List (JStr × Bool)

/-- Look a path up. -/
def wfsGet (fs : WriteFs) (p : JStr) : Option Bool :=
  (fs.find? (fun e => e.1 = p)).map Prod.snd

/-- Remove a path. -/
def wfsRemove (fs : WriteFs) (p : JStr) : WriteFs :=
  fs.filter (fun e => e.1 ≠ p)

/-- Create or overwrite a path with the given completeness. -/
def wfsSet (fs : WriteFs) (p : JStr) (complete : Bool) : WriteFs :=
  (p, complete) :: wfsRemove fs p

/-- The encode-and-commit sequence of `doEncode` (lines 762-770) for one
attempt. `tmpSuffix` is the generated `.tmp-<pid>-<random>` suffix, so the
temporary path is `outFile ++ tmpSuffix` in the same directory. The states
are, in order: before the attempt; while the codec writes the temporary
file; then, on success, the temporary complete and the rename installing
`outFile`; on failure, the temporary removed again. -/
def doEncodeStates (fs : WriteFs) (outFile tmpSuffix : JStr)
    (encodeOk : Bool) : List WriteFs × Except Unit WriteFs :=
  let tmp := outFile ++ tmpSuffix
  let writing := wfsSet fs tmp false
  if encodeOk then
    let written := wfsSet writing tmp true
    let committed := wfsSet (wfsRemove written tmp) outFile true
    ([fs, writing, written, committed], .ok committed)
  else
    let cleaned := wfsRemove writing tmp
    ([fs, writing, cleaned], .error ())

/-! ## Format normalization, lines 639-660 -/

/-- Encoder keys supported by `applyEncoder`. -/
inductive EncKey
  | jpeg
  | png
  | webp
  | avif
  | heif
  | tiff
deriving Repr, DecidableEq

/-- The result of `normalizeFormat` on a valid format string: either
"keep the original format" or a fixed encoder key with an output
extension (the optional HEIF sub-variant does not affect control flow). -/
inductive Fmt
  | same
  | fixed (key : EncKey) (outExt : JStr)
deriving Repr, DecidableEq

/-- `normalizeFormat` (lines 639-650) as a fallible function on the format
string; `none` models the thrown `Unsupported format` error. A falsy string
(empty) or the exact string `same` means "same"; every other spelling is
lowercased and matched. -/
def normalizeFormat (fmt : JStr) : Option Fmt :=
  if fmt.isEmpty || fmt = "same".toList then some .same
  else
    let f := asciiLower fmt
    if f = "jpg".toList || f = "jpeg".toList then some (.fixed .jpeg ".jpg".toList)
    else if f = "png".toList then some (.fixed .png ".png".toList)
    else if f = "webp".toList then some (.fixed .webp ".webp".toList)
    else if f = "avif".toList then some (.fixed .avif ".avif".toList)
    else if f = "heif".toList then some (.fixed .heif ".heif".toList)
    else if f = "heic".toList then some (.fixed .heif ".heic".toList)
    else if f = "tif".toList || f = "tiff".toList then some (.fixed .tiff ".tiff".toList)
    else none

/-- `ENCODE_SAME_OK` (line 638). -/
def ENCODE_SAME_OK : List JStr :=
  [".jpg".toList, ".jpeg".toList, ".png".toList, ".webp".toList,
   ".avif".toList, ".heif".toList, ".heic".toList, ".tif".toList,
   ".tiff".toList]

/-- `encoderForExt` (lines 651-660), restricted to the key. -/
def encoderForExt (extLower : JStr) : Option EncKey :=
  if extLower = ".jpg".toList || extLower = ".jpeg".toList then some .jpeg
  else if extLower = ".png".toList then some .png
  else if extLower = ".webp".toList then some .webp
  else if extLower = ".avif".toList then some .avif
  else if extLower = ".heif".toList || extLower = ".heic".toList then some .heif
  else if extLower = ".tif".toList || extLower = ".tiff".toList then some .tiff
  else none

/-! ## Orchestrator prelude (`resizeImages`, lines 849-927)

The steps `resizeImages` performs before any work item is scheduled, as an
effect trace: the input-existence probe, the flatten/overwrite validation,
the output-root creation, the format validation performed when
`processFileFactory` is constructed, and finally the start of enumeration
and per-item work. -/

/-- Effects of the orchestrator prelude, in program order. `workStarted`
stands for everything from the directory walk on: from that point files are
read, converted, copied or deleted. -/
inductive PreEffect
  | accessInput
  | mkdirOutputRoot
  | workStarted
deriving Repr, DecidableEq

/-- The errors the prelude can throw. -/
inductive PreError
  | inputNotFound
  | flattenOverwriteConflict
  | unsupportedFormat
deriving Repr, DecidableEq

/-- The configuration fields the prelude consults. -/
structure PreCfg where
  flatten : Bool
  overwrite : Bool
  format : JStr
  fallbackFormat : Option JStr
deriving Repr, DecidableEq

/-- The prelude of `resizeImages` (lines 872-927) over a filesystem in which
the input directory may or may not exist: probe the input (line 874),
reject `flatten` + `overwrite` (line 875), create the output root
(line 876), then let `processFileFactory` normalize `format` and
`fallbackFormat` (lines 880, 675-676); only after all of that does
enumeration and per-item processing start (lines 924-927). -/
def resizeImagesPrelude (cfg : PreCfg) (inputExists : Bool) :
    List PreEffect × Option PreError :=
  if ¬ inputExists then ([.accessInput], some .inputNotFound)
  else if cfg.flatten && cfg.overwrite then
    ([.accessInput], some .flattenOverwriteConflict)
  else
    let eff := if cfg.overwrite then [PreEffect.accessInput]
      else [PreEffect.accessInput, PreEffect.mkdirOutputRoot]
    if (normalizeFormat cfg.format).isNone then (eff, some .unsupportedFormat)
    else
      match cfg.fallbackFormat with
      | some fb =>
        if ¬ fb.isEmpty ∧ (normalizeFormat fb).isNone then
          (eff, some .unsupportedFormat)
        else (eff ++ [.workStarted], none)
      | none => (eff ++ [.workStarted], none)

/-! ## Per-file fallback executor (`processFileFactory`, lines 674-845)

Each effectful stage of one work item (a copy, an encode-and-commit, a
`sips` run) either succeeds or fails with a JavaScript error; the
environment of a work item fixes the outcome each stage would have, and
`processFile` replays the source's control flow over it, recording the
`onFile` events it emits, whether its task promise rejects, and which
stages it actually ran. -/

/-- The outcome a stage would have if run. -/
inductive OpResult
  | ok
  | err (e : JsError)
deriving Repr, DecidableEq

/-- Whether a stage outcome is a success. -/
def opOk : OpResult → Bool
  | .ok => true
  | .err _ => false

/-- The environment of one work item: its extension and the outcome of each
effectful stage, were it reached. -/
structure ItemEnv where
  ext : JStr
  copyEarly : OpResult
  copyNoEnc : OpResult
  encPrimary : OpResult
  sipsHeic : OpResult
  sipsJpeg : OpResult
  encFallback : OpResult
  copyLate : OpResult
deriving Repr, DecidableEq

/-- The configuration fields `processFileFactory` consults for control flow:
`fmt` and `fb` are the normalized `format` / `fallbackFormat`, and the two
`sips` booleans are the evaluated platform gates of lines 790-791. -/
structure ProcCfg where
  overwrite : Bool
  fmt : Fmt
  fb : Option Fmt
  allowSet : List JStr
  trySipsHeic : Bool
  trySipsJpeg : Bool
deriving Repr, DecidableEq

/-- The `action` field of an `onFile` event. -/
inductive Action
  | converted
  | copied
  | kept
  | error
deriving Repr, DecidableEq

/-- The stages a work item can actually run. -/
inductive Stage
  | primaryEncode
  | sipsHeicStage
  | sipsJpegStage
  | fallbackEncode
  | copyStage
  | keepStage
deriving Repr, DecidableEq

/-- What processing one work item did: the `onFile` events recorded into
`stats.results` (their actions), whether the scheduled task's promise
rejected, and the stages run, in order. -/
structure ItemResult where
  events : List Action
  rejected : Bool
  stages : List Stage
deriving Repr, DecidableEq

/-- `fb.key === 'jpeg'` (a same-mode fallback has no `key`). -/
def fmtKeyIsJpeg : Fmt → Bool
  | .fixed .jpeg _ => true
  | _ => false

/-- `wantJpeg` (line 794). -/
def wantJpeg (cfg : ProcCfg) (extLower : JStr) : Bool :=
  fmtKeyIsJpeg cfg.fmt ||
  (cfg.fmt = Fmt.same && ¬ ENCODE_SAME_OK.contains extLower &&
    (match cfg.fb with
     | none => true
     | some f => fmtKeyIsJpeg f)) ||
  (match cfg.fb with
   | none => false
   | some f => fmtKeyIsJpeg f)

/-- The gate of line 824: the fallback format is attempted unless it has
the same key and output extension as a fixed primary format. -/
def fbDistinct (fmt fb : Fmt) : Bool :=
  match fmt with
  | .same => true
  | .fixed k ext =>
    match fb with
    | .same => true
    | .fixed k2 ext2 => k2 ≠ k || ext2 ≠ ext

/-- Lines 720-731 and 740-749: copy the original (recording nothing and
rejecting when the copy itself fails) in safe mode, keep it in overwrite
mode. `acc` is the stages already run. -/
def copyOrKeepNoRecord (overwrite : Bool) (copyRes : OpResult)
    (acc : List Stage) : ItemResult :=
  if ¬ overwrite then
    match copyRes with
    | .ok => ⟨[.copied], false, acc ++ [.copyStage]⟩
    | .err _ => ⟨[], true, acc ++ [.copyStage]⟩
  else ⟨[.kept], false, acc ++ [.keepStage]⟩

/-- Lines 828-843: the final copy-or-keep after a failed encode; a failed
copy here records an `error` outcome and rethrows. -/
def copyOrKeepAfterFailure (overwrite : Bool) (copyRes : OpResult)
    (acc : List Stage) : ItemResult :=
  if ¬ overwrite then
    match copyRes with
    | .ok => ⟨[.copied], false, acc ++ [.copyStage]⟩
    | .err _ => ⟨[.error], true, acc ++ [.copyStage]⟩
  else ⟨[.kept], false, acc ++ [.keepStage]⟩

/-- Lines 824-843: the fallback-format attempt (gated by line 824), then
copy/keep. -/
def failChainFb (cfg : ProcCfg) (env : ItemEnv) (acc : List Stage) :
    ItemResult :=
  let gate := match cfg.fb with
    | some f => fbDistinct cfg.fmt f
    | none => false
  let acc := acc ++ (if gate then [Stage.fallbackEncode] else [])
  if gate && opOk env.encFallback then ⟨[.converted], false, acc⟩
  else copyOrKeepAfterFailure cfg.overwrite env.copyLate acc

/-- Lines 810-822: the `sips` JPEG re-encode attempt, then the rest of the
chain. -/
def failChainSipsJpeg (cfg : ProcCfg) (env : ItemEnv) (extLower : JStr)
    (acc : List Stage) : ItemResult :=
  let gate := cfg.trySipsJpeg &&
    (extLower = ".jpg".toList || extLower = ".jpeg".toList) &&
    wantJpeg cfg extLower
  let acc := acc ++ (if gate then [Stage.sipsJpegStage] else [])
  if gate && opOk env.sipsJpeg then ⟨[.converted], false, acc⟩
  else failChainFb cfg env acc

/-- Lines 789-843: everything the catch block does after a non-transient
primary-encode failure: the `sips` HEIC attempt, the `sips` JPEG attempt,
the fallback format, then copy/keep. -/
def failChain (cfg : ProcCfg) (env : ItemEnv) (extLower : JStr) :
    ItemResult :=
  let gate := cfg.trySipsHeic &&
    (extLower = ".heic".toList || extLower = ".heif".toList) &&
    wantJpeg cfg extLower
  let acc := Stage.primaryEncode :: (if gate then [Stage.sipsHeicStage] else [])
  if gate && opOk env.sipsHeic then ⟨[.converted], false, acc⟩
  else failChainSipsJpeg cfg env extLower acc

/-- The fallback executor for one work item (lines 714-845). -/
def processFile (cfg : ProcCfg) (env : ItemEnv) : ItemResult :=
  let extLower := asciiLower env.ext
  if ¬ cfg.allowSet.contains extLower then
    -- lines 720-731: outside the allow-set, copy or keep
    copyOrKeepNoRecord cfg.overwrite env.copyEarly []
  else if cfg.fmt = Fmt.same ∧ ¬ ENCODE_SAME_OK.contains extLower ∧
      cfg.fb = none then
    -- lines 736-750: no same-format encoder and no fallback format
    copyOrKeepNoRecord cfg.overwrite env.copyNoEnc []
  else
    -- a primary target exists; `doEncode(target)` (line 781)
    match env.encPrimary with
    | .ok => ⟨[.converted], false, [.primaryEncode]⟩
    | .err e =>
      if isTransientResourceError e then
        -- lines 783-787: record the error, rethrow
        ⟨[.error], true, [.primaryEncode]⟩
      else failChain cfg env extLower

/-- The run summary counters of `resizeImages` (line 878). -/
structure Stats where
  converted : ℕ
  copied : ℕ
  kept : ℕ
  errors : ℕ
deriving Repr, DecidableEq

/-- The summary a completed `resizeImages` run returns for the given
enumerated work items; every event increments its counter during
processing, and the `Promise.allSettled` loop (lines 929-932) then adds one
more error per rejected task. -/
def runStats (cfg : ProcCfg) (items : List ItemEnv) : Stats :=
  let rs := items.map (processFile cfg)
  let evts := (rs.map ItemResult.events).flatten
  { converted := evts.count .converted
    copied := evts.count .copied
    kept := evts.count .kept
    errors := evts.count .error + rs.countP (fun r => r.rejected) }

/-- A task that rejected after already recording an error outcome: exactly
the items double-counted in `errors`. -/
def doubleCounted (r : ItemResult) : Bool :=
  r.rejected && r.events.contains Action.error

/-! ## Lemmas about the adaptive limiter -/

/-- The multiplicative-decrease step never increases the cap. -/
theorem mdStep_le (cap : ℕ) : mdStep cap ≤ cap := by
  unfold mdStep; omega

/-- The multiplicative-decrease step is strict from caps of 4 and above. -/
theorem mdStep_lt (cap : ℕ) (h : 4 ≤ cap) : mdStep cap < cap := by
  unfold mdStep; omega

/-- One tick keeps the cap inside `[minCap, maxCap]`. -/
theorem tick_bounded (cfg : LimiterCfg) (h : cfg.minCap ≤ cfg.maxCap)
    (cap : ℕ) (h1 : cfg.minCap ≤ cap) (h2 : cap ≤ cfg.maxCap)
    (w : WindowSample) :
    cfg.minCap ≤ tick cfg cap w ∧ tick cfg cap w ≤ cfg.maxCap := by
  have hmd := mdStep_le cap
  unfold tick
  split
  · constructor
    · exact Nat.le_max_left _ _
    · exact Nat.max_le.mpr ⟨h, Nat.le_trans hmd h2⟩
  · split
    · constructor
      · exact Nat.le_min.mpr ⟨h, Nat.le_trans h1 (Nat.le_succ cap)⟩
      · exact Nat.min_le_left _ _
    · exact ⟨h1, h2⟩

/-- A tick sequence keeps the cap inside `[minCap, maxCap]`. -/
theorem runTicks_bounded (cfg : LimiterCfg) (h : cfg.minCap ≤ cfg.maxCap)
    (ws : List WindowSample) (cap : ℕ)
    (h1 : cfg.minCap ≤ cap) (h2 : cap ≤ cfg.maxCap) :
    cfg.minCap ≤ runTicks cfg cap ws ∧ runTicks cfg cap ws ≤ cfg.maxCap := by
  induction ws generalizing cap with
  | nil => exact ⟨h1, h2⟩
  | cons w ws ih =>
    have hb := tick_bounded cfg h cap h1 h2 w
    exact ih (tick cfg cap w) hb.1 hb.2

/-- The initial clamp lands inside `[minCap, maxCap]`. -/
theorem limiterInitialCap_bounded (minCap maxCap ini : ℕ)
    (h : minCap ≤ maxCap) :
    minCap ≤ limiterInitialCap minCap maxCap ini ∧
      limiterInitialCap minCap maxCap ini ≤ maxCap := by
  unfold limiterInitialCap
  simp only [Nat.min_def, Nat.max_def]
  repeat' split
  all_goals omega

/-! ## Claim C3 -/

/-- Claim C3: for every sequence of windows (any injected per-window
latencies, sample counts, lags, and transient-error counts), the adaptive
controller's cap is within `[minCap, maxCap]` after every tick. The cap
starts clamped into the interval and every tick preserves it, so after any
tick sequence the cap is in bounds. -/
theorem c3_cap_always_in_bounds (cfg : LimiterCfg) (ini : ℕ)
    (h : cfg.minCap ≤ cfg.maxCap) (ws : List WindowSample) :
    cfg.minCap ≤ runTicks cfg (limiterInitialCap cfg.minCap cfg.maxCap ini) ws ∧
      runTicks cfg (limiterInitialCap cfg.minCap cfg.maxCap ini) ws ≤ cfg.maxCap := by
  have h0 := limiterInitialCap_bounded cfg.minCap cfg.maxCap ini h
  exact runTicks_bounded cfg h ws _ h0.1 h0.2

/-- Witness for C3 at a concrete configuration and window sequence. -/
theorem c3_cap_always_in_bounds_witness :
    (1 : ℕ) ≤
        runTicks ⟨1, 8, 450, 60⟩ (limiterInitialCap 1 8 (orchestratorInitial 8))
          [⟨100, 0, 0, 0⟩, ⟨0, 900, 3, 0⟩, ⟨0, 0, 0, 5⟩] ∧
      runTicks ⟨1, 8, 450, 60⟩ (limiterInitialCap 1 8 (orchestratorInitial 8))
          [⟨100, 0, 0, 0⟩, ⟨0, 900, 3, 0⟩, ⟨0, 0, 0, 5⟩] ≤ 8 :=
  c3_cap_always_in_bounds ⟨1, 8, 450, 60⟩ (orchestratorInitial 8) (by decide)
    [⟨100, 0, 0, 0⟩, ⟨0, 900, 3, 0⟩, ⟨0, 0, 0, 5⟩]

/-! ## Claim C5 -/

/-- Counterexample to claim C5 as stated: with `minCap = 1`, `maxCap = 8`,
a cap of `2 > minCap` and a window whose lag `100` exceeds the threshold
`60`, the tick leaves the cap at `2` (because `ceil(2 * 0.7) = 2`), so the
cap does not strictly decrease. -/
theorem c5_no_strict_decrease_cex :
    (1 : ℕ) < 2 ∧
      (⟨1, 8, 450, 60⟩ : LimiterCfg).lagThresholdMs <
        (⟨100, 0, 0, 0⟩ : WindowSample).lagMs ∧
      ¬ tick ⟨1, 8, 450, 60⟩ 2 ⟨100, 0, 0, 0⟩ < 2 := by
  refine ⟨by decide, by norm_num, ?_⟩
  have : tick ⟨1, 8, 450, 60⟩ 2 ⟨100, 0, 0, 0⟩ = 2 := by
    unfold tick backpressure windowAvg mdStep
    norm_num
  omega

/-- Claim C5, amended: a tick of a window whose lag exceeds the threshold
sets the cap to `max(minCap, ceil(cap * 0.7))`; this is never above the old
cap, and it strictly decreases the cap whenever additionally `cap > minCap`
and `cap ≥ 4` (for caps 1-3 the ceiling maps the cap to itself, so no
strict decrease happens there). -/
theorem c5_lag_decreases_cap (cfg : LimiterCfg) (cap : ℕ) (w : WindowSample)
    (hlag : cfg.lagThresholdMs < w.lagMs) :
    tick cfg cap w = Nat.max cfg.minCap (mdStep cap) ∧
      (cfg.minCap < cap → 4 ≤ cap → tick cfg cap w < cap) := by
  have hbp : backpressure cfg w = true := by
    unfold backpressure
    simp only [Bool.or_eq_true, decide_eq_true_eq]
    exact Or.inl (Or.inl hlag)
  have heq : tick cfg cap w = Nat.max cfg.minCap (mdStep cap) := by
    unfold tick
    rw [hbp]
    simp
  refine ⟨heq, fun hmin h4 => ?_⟩
  rw [heq]
  exact Nat.max_lt.mpr ⟨hmin, mdStep_lt cap h4⟩

/-- Witness for the amended C5 at a concrete state: cap 10 with lag 100
over threshold 60 drops to `max(1, 7) = 7 < 10`. -/
theorem c5_lag_decreases_cap_witness :
    tick ⟨1, 8, 450, 60⟩ 10 ⟨100, 0, 0, 0⟩ = Nat.max 1 (mdStep 10) ∧
      ((1 : ℕ) < 10 → 4 ≤ 10 → tick ⟨1, 8, 450, 60⟩ 10 ⟨100, 0, 0, 0⟩ < 10) :=
  c5_lag_decreases_cap ⟨1, 8, 450, 60⟩ 10 ⟨100, 0, 0, 0⟩ (by norm_num)

/-! ## Claim C6 -/

/-- Counterexample to claim C6 as stated: with `minConcurrency = 3` and
`maxConcurrency = 8` the limiter clamps the orchestrator's
`Math.min(2, maxConcurrency)` up to `minConcurrency`, so the starting cap
is `3`, not `min(2, maxCap) = 2`. -/
theorem c6_initial_cap_cex :
    limiterInitialCap 3 8 (orchestratorInitial 8) ≠ Nat.min 2 8 := by
  decide

/-- Claim C6, amended: the adaptive controller's cap starts at
`min(2, maxCap)` for every configuration with `minConcurrency ≤ 2`; in
general the starting value is `min(2, maxCap)` clamped into
`[minCap, maxCap]`. -/
theorem c6_initial_cap (minC maxC : ℕ) (h : minC ≤ 2) :
    limiterInitialCap minC maxC (orchestratorInitial maxC) = Nat.min 2 maxC := by
  unfold limiterInitialCap orchestratorInitial
  simp only [Nat.min_def, Nat.max_def]
  repeat' split
  all_goals omega

/-- Witness for the amended C6 at the default configuration bounds. -/
theorem c6_initial_cap_witness :
    limiterInitialCap 1 8 (orchestratorInitial 8) = Nat.min 2 8 :=
  c6_initial_cap 1 8 (by decide)

/-! ## Claim C7 -/

/-- Claim C7: for every configuration with `flatten = true` and
`overwrite = true`, and for every configuration whose format string is
outside the supported set, `resizeImages` fails validation before any work
item is processed: the run ends in an error and the only effects that may
have happened are the input-existence probe and the creation of the output
root directory — no enumeration and no per-item read, convert, copy or
delete. -/
theorem c7_config_errors_fail_fast (cfg : PreCfg) (inputExists : Bool)
    (h : (cfg.flatten = true ∧ cfg.overwrite = true) ∨
      normalizeFormat cfg.format = none) :
    (resizeImagesPrelude cfg inputExists).2.isSome = true ∧
      PreEffect.workStarted ∉ (resizeImagesPrelude cfg inputExists).1 := by
  unfold resizeImagesPrelude
  rcases h with ⟨hf, ho⟩ | hfmt
  · by_cases hex : inputExists
    · simp [hex, hf, ho]
    · simp [hex]
  · by_cases hex : inputExists
    · by_cases hfo : cfg.flatten && cfg.overwrite
      · simp [hex, hfo]
      · constructor
        · simp [hex, hfo, hfmt]
        · simp only [hex, hfo, hfmt]
          by_cases how : cfg.overwrite = true <;> simp [how]
    · simp [hex]

/-- Witness for C7: the default-like configuration with both `flatten` and
`overwrite` set, and an existing input directory. -/
theorem c7_config_errors_fail_fast_witness :
    (resizeImagesPrelude ⟨true, true, "jpeg".toList, none⟩ true).2.isSome = true ∧
      PreEffect.workStarted ∉
        (resizeImagesPrelude ⟨true, true, "jpeg".toList, none⟩ true).1 :=
  c7_config_errors_fail_fast ⟨true, true, "jpeg".toList, none⟩ true
    (Or.inl ⟨rfl, rfl⟩)

/-! ## Claim C10 -/

/-- Claim C10 (implicit): extension matching against the allow/deny sets is
case-insensitive. The classification of a path under any
`includeExt`/`excludeExt` configuration factors through the lowercased
extension, so any two paths whose extensions agree up to letter case (for
example `.JPG` and `.jpg`) are classified the same. -/
theorem c10_classification_case_insensitive
    (includeExt excludeExt : Option (List JStr)) (p₁ p₂ : JStr)
    (h : asciiLower (extnameOf p₁) = asciiLower (extnameOf p₂)) :
    classifyPath includeExt excludeExt p₁ =
      classifyPath includeExt excludeExt p₂ := by
  unfold classifyPath
  rw [h]

/-- Witness for C10: `photo.JPG` and `photo.jpg` under the default sets. -/
theorem c10_classification_case_insensitive_witness :
    classifyPath none none "photo.JPG".toList =
      classifyPath none none "photo.jpg".toList :=
  c10_classification_case_insensitive none none "photo.JPG".toList
    "photo.jpg".toList (by decide)

/-! ## Lemmas about the per-file executor -/

/-- Every `onFile` action is one of the four counters. -/
theorem countActions_total (l : List Action) :
    l.count Action.converted + l.count Action.copied + l.count Action.kept +
      l.count Action.error = l.length := by
  induction l with
  | nil => simp
  | cons a t ih =>
    cases a <;> simp [List.count_cons] <;> omega

/-- The number of run counters one item result increments: its recorded
events plus one for a rejected task. -/
def contribution (r : ItemResult) : ℕ :=
  r.events.length + (if r.rejected = true then 1 else 0)

/-- Copy/keep without error recording settles one counter exactly. -/
theorem contribution_copyOrKeepNoRecord (ow : Bool) (cr : OpResult)
    (acc : List Stage) :
    contribution (copyOrKeepNoRecord ow cr acc) =
      1 + (if doubleCounted (copyOrKeepNoRecord ow cr acc) = true then 1 else 0) := by
  unfold copyOrKeepNoRecord
  split
  · split <;> simp [contribution, doubleCounted]
  · simp [contribution, doubleCounted]

/-- The post-failure copy/keep settles one counter, two when the copy
fails. -/
theorem contribution_copyOrKeepAfterFailure (ow : Bool) (cr : OpResult)
    (acc : List Stage) :
    contribution (copyOrKeepAfterFailure ow cr acc) =
      1 + (if doubleCounted (copyOrKeepAfterFailure ow cr acc) = true then 1 else 0) := by
  unfold copyOrKeepAfterFailure
  split
  · split <;> simp [contribution, doubleCounted]
  · simp [contribution, doubleCounted]

/-- A chain step that either commits a `converted` outcome or defers to the
rest of the chain keeps the one-plus-double-count accounting. -/
theorem contribution_ite_conv (c : Prop) [Decidable c] (st : List Stage)
    (r : ItemResult)
    (hr : contribution r = 1 + (if doubleCounted r = true then 1 else 0)) :
    contribution (if c then ⟨[Action.converted], false, st⟩ else r) =
      1 + (if doubleCounted (if c then ⟨[Action.converted], false, st⟩ else r) = true
        then 1 else 0) := by
  by_cases h : c
  · simp [h, contribution, doubleCounted]
  · simpa [h] using hr

/-- The fallback-format stage settles one counter, two when the final copy
fails. -/
theorem contribution_failChainFb (cfg : ProcCfg) (env : ItemEnv)
    (acc : List Stage) :
    contribution (failChainFb cfg env acc) =
      1 + (if doubleCounted (failChainFb cfg env acc) = true then 1 else 0) := by
  unfold failChainFb
  dsimp only
  exact contribution_ite_conv _ _ _ (contribution_copyOrKeepAfterFailure _ _ _)

/-- The `sips` JPEG stage settles one counter, two when the final copy
fails. -/
theorem contribution_failChainSipsJpeg (cfg : ProcCfg) (env : ItemEnv)
    (extLower : JStr) (acc : List Stage) :
    contribution (failChainSipsJpeg cfg env extLower acc) =
      1 + (if doubleCounted (failChainSipsJpeg cfg env extLower acc) = true then 1 else 0) := by
  unfold failChainSipsJpeg
  dsimp only
  exact contribution_ite_conv _ _ _ (contribution_failChainFb _ _ _)

/-- The whole post-failure chain settles one counter, two when the final
copy fails. -/
theorem contribution_failChain (cfg : ProcCfg) (env : ItemEnv)
    (extLower : JStr) :
    contribution (failChain cfg env extLower) =
      1 + (if doubleCounted (failChain cfg env extLower) = true then 1 else 0) := by
  unfold failChain
  dsimp only
  exact contribution_ite_conv _ _ _ (contribution_failChainSipsJpeg _ _ _ _)

/-- Each work item contributes exactly one counted outcome, plus one more
when its task rejects after an error outcome was already recorded. -/
theorem processFile_contribution (cfg : ProcCfg) (env : ItemEnv) :
    contribution (processFile cfg env) =
      1 + (if doubleCounted (processFile cfg env) = true then 1 else 0) := by
  unfold processFile
  dsimp only
  split
  · exact contribution_copyOrKeepNoRecord _ _ _
  · split
    · exact contribution_copyOrKeepNoRecord _ _ _
    · split
      · simp [contribution, doubleCounted]
      · split
        · simp [contribution, doubleCounted]
        · exact contribution_failChain _ _ _

/-- A double-counted item is in particular a rejected one. -/
theorem doubleCounted_rejected (r : ItemResult) (h : doubleCounted r = true) :
    r.rejected = true := by
  unfold doubleCounted at h
  exact (Bool.and_eq_true _ _).mp h |>.1

/-! ## Lemmas about the write-filesystem model -/

/-- Looking up just-written content. -/
theorem wfsGet_set_self (fs : WriteFs) (p : JStr) (b : Bool) :
    wfsGet (wfsSet fs p b) p = some b := by
  simp [wfsGet, wfsSet, List.find?_cons_of_pos]

/-- Lookup through a removal of another path. -/
theorem wfsGet_remove_other (fs : WriteFs) (p q : JStr) (h : q ≠ p) :
    wfsGet (wfsRemove fs p) q = wfsGet fs q := by
  unfold wfsGet wfsRemove
  induction fs with
  | nil => simp
  | cons e t ih =>
    by_cases he : e.1 = p
    · rw [List.filter_cons_of_neg (by simp [he])]
      rw [ih]
      have : ¬ e.1 = q := by rw [he]; exact fun hq => h hq.symm
      rw [List.find?_cons_of_neg _ (by simp [this])]
    · rw [List.filter_cons_of_pos (by simp [he])]
      by_cases heq : e.1 = q
      · rw [List.find?_cons_of_pos _ (by simp [heq]),
          List.find?_cons_of_pos _ (by simp [heq])]
      · rw [List.find?_cons_of_neg _ (by simp [heq]),
          List.find?_cons_of_neg _ (by simp [heq])]
        exact ih

/-- Lookup of another path through a write. -/
theorem wfsGet_set_other (fs : WriteFs) (p q : JStr) (b : Bool) (h : q ≠ p) :
    wfsGet (wfsSet fs p b) q = wfsGet fs q := by
  unfold wfsSet
  rw [show wfsGet ((p, b) :: wfsRemove fs p) q =
    wfsGet (wfsRemove fs p) q from ?_, wfsGet_remove_other fs p q h]
  unfold wfsGet
  rw [List.find?_cons_of_neg _ (by simp; exact fun hq => h hq.symm)]

/-- A removed path is gone. -/
theorem wfsGet_remove_self (fs : WriteFs) (p : JStr) :
    wfsGet (wfsRemove fs p) p = none := by
  unfold wfsGet wfsRemove
  induction fs with
  | nil => simp
  | cons e t ih =>
    by_cases he : e.1 = p
    · rw [List.filter_cons_of_neg (by simp [he])]
      exact ih
    · rw [List.filter_cons_of_pos (by simp [he])]
      rw [List.find?_cons_of_neg _ (by simp [he])]
      exact ih

/-- Appending a nonempty suffix changes the path. -/
theorem append_ne_self (p s : JStr) (h : s ≠ []) : p ++ s ≠ p := by
  intro he
  have : (p ++ s).length = p.length := by rw [he]
  simp at this
  exact h this

/-- Appending a slash-free suffix keeps the directory name. -/
theorem dirnameOf_append (p s : JStr) (h : '/' ∉ s) :
    dirnameOf (p ++ s) = dirnameOf p := by
  unfold dirnameOf
  rw [List.reverse_append]
  rw [List.dropWhile_append]
  have hall : (s.reverse.dropWhile (fun c => c ≠ '/')).isEmpty = true := by
    rw [List.isEmpty_iff, List.dropWhile_eq_nil_iff]
    intro c hc
    simp only [ne_eq, decide_not, Bool.not_eq_eq_eq_not, Bool.not_true,
      decide_eq_false_iff_not]
    exact fun hcs => h (List.mem_reverse.mp (hcs ▸ hc))
  rw [if_pos hall]

/-! ## Claim C2 -/

/-- Claim C2: every encode attempt writes to a uniquely named temporary
path (`outFile ++ tmpSuffix`, in the destination directory because the
suffix has no separator) and renames it to the final path only after the
write fully succeeds. In every observable state the final path is never
partial; on encode failure the outcome is an error, the final path has
exactly its prior content in every state (so it is never created or
modified), and the last state no longer contains the temporary path. On
success only the last state differs at the final path, where the complete
output has been installed. -/
theorem c2_atomic_write (fs : WriteFs) (outFile tmpSuffix : JStr)
    (encodeOk : Bool)
    (hne : tmpSuffix ≠ [])
    (hslash : '/' ∉ tmpSuffix)
    (hout : wfsGet fs outFile ≠ some false) :
    dirnameOf (outFile ++ tmpSuffix) = dirnameOf outFile ∧
      (∀ s ∈ (doEncodeStates fs outFile tmpSuffix encodeOk).1,
        wfsGet s outFile ≠ some false) ∧
      (encodeOk = false →
        (doEncodeStates fs outFile tmpSuffix encodeOk).2 = Except.error () ∧
        (∀ s ∈ (doEncodeStates fs outFile tmpSuffix encodeOk).1,
          wfsGet s outFile = wfsGet fs outFile) ∧
        ∃ finalSt,
          (doEncodeStates fs outFile tmpSuffix encodeOk).1.getLast? = some finalSt ∧
          wfsGet finalSt (outFile ++ tmpSuffix) = none) ∧
      (encodeOk = true →
        ∃ finalSt,
          (doEncodeStates fs outFile tmpSuffix encodeOk).2 = Except.ok finalSt ∧
          (doEncodeStates fs outFile tmpSuffix encodeOk).1.getLast? = some finalSt ∧
          wfsGet finalSt outFile = some true ∧
          ∀ s ∈ (doEncodeStates fs outFile tmpSuffix encodeOk).1.dropLast,
            wfsGet s outFile = wfsGet fs outFile) := by
  have htne : outFile ++ tmpSuffix ≠ outFile := append_ne_self _ _ hne
  have hone : outFile ≠ outFile ++ tmpSuffix := fun h => htne h.symm
  have hw1 : wfsGet (wfsSet fs (outFile ++ tmpSuffix) false) outFile =
      wfsGet fs outFile := wfsGet_set_other _ _ _ _ hone
  have hw2 : wfsGet (wfsSet (wfsSet fs (outFile ++ tmpSuffix) false)
      (outFile ++ tmpSuffix) true) outFile = wfsGet fs outFile := by
    rw [wfsGet_set_other _ _ _ _ hone, hw1]
  refine ⟨dirnameOf_append _ _ hslash, ?_, ?_, ?_⟩
  · cases encodeOk <;>
      simp only [doEncodeStates, if_true, if_false, Bool.false_eq_true,
        List.mem_cons, List.mem_singleton, List.not_mem_nil]
    · rintro s (rfl | rfl | rfl | hf)
      · exact hout
      · rw [hw1]; exact hout
      · rw [wfsGet_remove_other _ _ _ hone, hw1]; exact hout
      · exact absurd hf (by simp)
    · rintro s (rfl | rfl | rfl | rfl | hf)
      · exact hout
      · rw [hw1]; exact hout
      · rw [hw2]; exact hout
      · rw [wfsGet_set_self]; simp
      · exact absurd hf (by simp)
  · rintro rfl
    refine ⟨rfl, ?_, ?_⟩
    · simp only [doEncodeStates, Bool.false_eq_true, if_false,
        List.mem_cons, List.mem_singleton, List.not_mem_nil]
      rintro s (rfl | rfl | rfl | hf)
      · rfl
      · exact hw1
      · rw [wfsGet_remove_other _ _ _ hone, hw1]
      · exact absurd hf (by simp)
    · refine ⟨wfsRemove (wfsSet fs (outFile ++ tmpSuffix) false)
        (outFile ++ tmpSuffix), ?_, ?_⟩
      · simp [doEncodeStates]
      · exact wfsGet_remove_self _ _
  · rintro rfl
    refine ⟨wfsSet (wfsRemove (wfsSet (wfsSet fs (outFile ++ tmpSuffix) false)
      (outFile ++ tmpSuffix) true) (outFile ++ tmpSuffix)) outFile true,
      by simp [doEncodeStates], by simp [doEncodeStates], wfsGet_set_self _ _ _, ?_⟩
    simp only [doEncodeStates, if_true, List.dropLast,
      List.mem_cons, List.mem_singleton, List.not_mem_nil]
    rintro s (rfl | rfl | rfl | hf)
    · rfl
    · exact hw1
    · exact hw2
    · exact absurd hf (by simp)

/-- Witness for C2 on a concrete filesystem, output path and suffix, for a
failing encode. -/
theorem c2_atomic_write_witness :
    dirnameOf ("out/a.jpg".toList ++ ".tmp-1-abc".toList) =
        dirnameOf "out/a.jpg".toList ∧
      (∀ s ∈ (doEncodeStates [] "out/a.jpg".toList ".tmp-1-abc".toList false).1,
        wfsGet s "out/a.jpg".toList ≠ some false) ∧
      (false = false →
        (doEncodeStates [] "out/a.jpg".toList ".tmp-1-abc".toList false).2 =
          Except.error () ∧
        (∀ s ∈ (doEncodeStates [] "out/a.jpg".toList ".tmp-1-abc".toList false).1,
          wfsGet s "out/a.jpg".toList = wfsGet [] "out/a.jpg".toList) ∧
        ∃ finalSt,
          (doEncodeStates [] "out/a.jpg".toList ".tmp-1-abc".toList false).1.getLast? =
            some finalSt ∧
          wfsGet finalSt ("out/a.jpg".toList ++ ".tmp-1-abc".toList) = none) ∧
      (false = true →
        ∃ finalSt,
          (doEncodeStates [] "out/a.jpg".toList ".tmp-1-abc".toList false).2 =
            Except.ok finalSt ∧
          (doEncodeStates [] "out/a.jpg".toList ".tmp-1-abc".toList false).1.getLast? =
            some finalSt ∧
          wfsGet finalSt "out/a.jpg".toList = some true ∧
          ∀ s ∈ (doEncodeStates [] "out/a.jpg".toList ".tmp-1-abc".toList false).1.dropLast,
            wfsGet s "out/a.jpg".toList = wfsGet [] "out/a.jpg".toList) :=
  c2_atomic_write [] "out/a.jpg".toList ".tmp-1-abc".toList false
    (by decide) (by decide) (by decide)

/-! ## Claim C1 -/

/-- Counterexample to claim C1 as stated: a run over one allowed `.jpg`
item whose encode fails with `ENOSPC` (a transient resource error)
completes with `errors = 2` — the error outcome recorded in `processFile`
plus the rejected-task count of the `Promise.allSettled` loop — so
`converted + copied + kept + errors = 2 ≠ 1` work item. -/
theorem c1_outcome_count_cex :
    (runStats ⟨false, Fmt.same, none, DEFAULT_ALLOW_EXT, false, false⟩
          [⟨".jpg".toList, .ok, .ok,
            .err ⟨some "ENOSPC".toList, "no space left on device".toList⟩,
            .ok, .ok, .ok, .ok⟩]).converted +
        (runStats ⟨false, Fmt.same, none, DEFAULT_ALLOW_EXT, false, false⟩
          [⟨".jpg".toList, .ok, .ok,
            .err ⟨some "ENOSPC".toList, "no space left on device".toList⟩,
            .ok, .ok, .ok, .ok⟩]).copied +
        (runStats ⟨false, Fmt.same, none, DEFAULT_ALLOW_EXT, false, false⟩
          [⟨".jpg".toList, .ok, .ok,
            .err ⟨some "ENOSPC".toList, "no space left on device".toList⟩,
            .ok, .ok, .ok, .ok⟩]).kept +
        (runStats ⟨false, Fmt.same, none, DEFAULT_ALLOW_EXT, false, false⟩
          [⟨".jpg".toList, .ok, .ok,
            .err ⟨some "ENOSPC".toList, "no space left on device".toList⟩,
            .ok, .ok, .ok, .ok⟩]).errors ≠
      ([⟨".jpg".toList, .ok, .ok,
          .err ⟨some "ENOSPC".toList, "no space left on device".toList⟩,
          .ok, .ok, .ok, .ok⟩] : List ItemEnv).length := by
  decide

/-- Claim C1, amended: for every completed run,
`converted + copied + kept + errors` equals the number of enumerated work
items plus the number of items whose task rejected after an error outcome
was already recorded (transient encode failures and copy failures after a
failed encode): those items are counted once in `processFile` and once more
by the `Promise.allSettled` drain, so they contribute two counted outcomes,
not one. -/
theorem c1_outcome_count (cfg : ProcCfg) (items : List ItemEnv) :
    (runStats cfg items).converted + (runStats cfg items).copied +
        (runStats cfg items).kept + (runStats cfg items).errors =
      items.length + (items.map (processFile cfg)).countP doubleCounted := by
  induction items with
  | nil => simp [runStats]
  | cons e t ih =>
    have h1 := processFile_contribution cfg e
    have h2 := countActions_total (processFile cfg e).events
    have h3 := doubleCounted_rejected (processFile cfg e)
    unfold contribution at h1
    unfold runStats at ih ⊢
    simp only [List.map_cons, List.flatten_cons, List.count_append,
      List.countP_cons, List.length_cons] at ih ⊢
    rcases hrej : (processFile cfg e).rejected <;>
      rcases hdc : doubleCounted (processFile cfg e) <;>
        simp only [hrej, hdc, if_true, if_false] at h1 ⊢ <;>
          simp_all <;> omega

/-! ## Claim C4 -/

/-- Claim C4: for every work item whose primary encode fails with an error
the transient-resource classifier flags, `processFile` records exactly one
`error` outcome (incrementing the run-level error counter), rethrows so the
task rejects, and runs no further stage: no `sips` attempt, no
fallback-format encode, no copy and no keep. The hypotheses say the item is
in the allow-set and a primary encode target exists. -/
theorem c4_transient_error_propagates (cfg : ProcCfg) (env : ItemEnv)
    (e : JsError)
    (h1 : cfg.allowSet.contains (asciiLower env.ext) = true)
    (h2 : ¬ (cfg.fmt = Fmt.same ∧ ¬ ENCODE_SAME_OK.contains (asciiLower env.ext) ∧
      cfg.fb = none))
    (h3 : env.encPrimary = .err e)
    (h4 : isTransientResourceError e = true) :
    processFile cfg env =
      ⟨[Action.error], true, [Stage.primaryEncode]⟩ := by
  unfold processFile
  dsimp only
  rw [if_neg (by simpa using h1), if_neg h2, h3]
  simp [h4]

/-- Witness for C4: an allowed `.jpg` item in same-format mode whose encode
fails with `ENOSPC`. -/
theorem c4_transient_error_propagates_witness :
    processFile ⟨false, Fmt.same, none, DEFAULT_ALLOW_EXT, false, false⟩
        ⟨".jpg".toList, .ok, .ok,
          .err ⟨some "ENOSPC".toList, "no space left on device".toList⟩,
          .ok, .ok, .ok, .ok⟩ =
      ⟨[Action.error], true, [Stage.primaryEncode]⟩ :=
  c4_transient_error_propagates _ _
    ⟨some "ENOSPC".toList, "no space left on device".toList⟩
    (by decide) (by decide) rfl (by decide)

/-! ## UTF-8 lemmas -/

/-- The scalar-value range of a `Char`. -/
theorem char_range (c : Char) :
    c.toNat < 55296 ∨ (57344 ≤ c.toNat ∧ c.toNat < 1114112) := by
  have h := c.valid
  unfold UInt32.isValidChar Nat.isValidChar at h
  unfold Char.toNat
  exact h

theorem utf8DecodeAux_encodeChar (c : Char) (l : List ℕ) (f : ℕ) :
    utf8DecodeAux (f + 1) (utf8EncodeChar c ++ l) = c :: utf8DecodeAux f l := by
  have hval := char_range c
  have hofn := Char.ofNat_toNat c
  by_cases h1 : c.toNat < 128
  · have he : utf8EncodeChar c = [c.toNat] := by
      unfold utf8EncodeChar
      rw [if_pos h1]
    rw [he, List.cons_append, List.nil_append]
    simp only [utf8DecodeAux]
    rw [if_pos h1, hofn]
  · by_cases h2 : c.toNat < 2048
    · have he : utf8EncodeChar c = [192 + c.toNat / 64, 128 + c.toNat % 64] := by
        unfold utf8EncodeChar
        rw [if_neg h1, if_pos h2]
      rw [he]
      simp only [List.cons_append, List.nil_append]
      simp only [utf8DecodeAux]
      rw [if_neg (by omega), if_pos (by omega)]
      have hv : (192 + c.toNat / 64 - 192) * 64 + (128 + c.toNat % 64 - 128) = c.toNat := by
        omega
      rw [hv, hofn]
    · by_cases h3 : c.toNat < 65536
      · have he : utf8EncodeChar c =
            [224 + c.toNat / 4096, 128 + c.toNat / 64 % 64, 128 + c.toNat % 64] := by
          unfold utf8EncodeChar
          rw [if_neg h1, if_neg h2, if_pos h3]
        rw [he]
        simp only [List.cons_append, List.nil_append]
        simp only [utf8DecodeAux]
        rw [if_neg (by omega), if_neg (by omega), if_pos (by omega)]
        have hv : (224 + c.toNat / 4096 - 224) * 4096 +
            (128 + c.toNat / 64 % 64 - 128) * 64 + (128 + c.toNat % 64 - 128) = c.toNat := by
          omega
        rw [hv, hofn]
      · have he : utf8EncodeChar c =
            [240 + c.toNat / 262144, 128 + c.toNat / 4096 % 64,
             128 + c.toNat / 64 % 64, 128 + c.toNat % 64] := by
          unfold utf8EncodeChar
          rw [if_neg h1, if_neg h2, if_neg h3]
        rw [he]
        simp only [List.cons_append, List.nil_append]
        simp only [utf8DecodeAux]
        rw [if_neg (by omega), if_neg (by omega), if_neg (by omega)]
        have hv : (240 + c.toNat / 262144 - 240) * 262144 +
            (128 + c.toNat / 4096 % 64 - 128) * 4096 +
            (128 + c.toNat / 64 % 64 - 128) * 64 + (128 + c.toNat % 64 - 128) = c.toNat := by
          omega
        rw [hv, hofn]

/-- Decoding an empty buffer yields the empty string at any fuel. -/
theorem utf8DecodeAux_nil (f : ℕ) : utf8DecodeAux f [] = [] := by
  cases f <;> rfl

/-- UTF-8 encoding distributes over append. -/
theorem utf8Encode_append (p q : JStr) :
    utf8Encode (p ++ q) = utf8Encode p ++ utf8Encode q := by
  simp [utf8Encode]

/-- Every character occupies at least one byte. -/
theorem utf8EncodeChar_length_pos (c : Char) :
    1 ≤ (utf8EncodeChar c).length := by
  unfold utf8EncodeChar
  by_cases h1 : c.toNat < 128 <;> by_cases h2 : c.toNat < 2048 <;>
    by_cases h3 : c.toNat < 65536 <;> simp [h1, h2, h3]

/-- A string is no longer than its UTF-8 encoding. -/
theorem length_le_utf8Encode (s : JStr) : s.length ≤ (utf8Encode s).length := by
  induction s with
  | nil => simp [utf8Encode]
  | cons c t ih =>
    have h := utf8EncodeChar_length_pos c
    have he : utf8Encode (c :: t) = utf8EncodeChar c ++ utf8Encode t := by
      simp [utf8Encode]
    rw [he]
    simp only [List.length_cons, List.length_append]
    omega

/-- With fuel at least the character count, decoding inverts encoding. -/
theorem utf8DecodeAux_encode (p : JStr) (f : ℕ) :
    utf8DecodeAux (p.length + f) (utf8Encode p) = p := by
  induction p generalizing f with
  | nil => simp [utf8Encode, utf8DecodeAux_nil]
  | cons c t ih =>
    have he : utf8Encode (c :: t) = utf8EncodeChar c ++ utf8Encode t := by
      simp [utf8Encode]
    rw [he]
    rw [show (c :: t).length + f = (t.length + f) + 1 by simp; omega]
    rw [utf8DecodeAux_encodeChar]
    rw [ih]

/-- Decoding inverts encoding. -/
theorem utf8Decode_encode (p : JStr) : utf8Decode (utf8Encode p) = p := by
  unfold utf8Decode
  have h := length_le_utf8Encode p
  rw [show (utf8Encode p).length = p.length + ((utf8Encode p).length - p.length) by omega]
  exact utf8DecodeAux_encode p _

/-- Non-leading bytes of one character's encoding are continuation bytes. -/
theorem utf8EncodeChar_cont (c : Char) (j : ℕ) (hj0 : 0 < j)
    (hjl : j < (utf8EncodeChar c).length) :
    isContByte ((utf8EncodeChar c).getD j 0) = true := by
  unfold utf8EncodeChar at hjl ⊢
  by_cases h1 : c.toNat < 128 <;> by_cases h2 : c.toNat < 2048 <;>
    by_cases h3 : c.toNat < 65536 <;>
      simp only [h1, h2, h3, if_true, if_false, List.length_cons,
        List.length_nil, List.length_singleton] at hjl ⊢
  all_goals first
    | omega
    | (interval_cases j <;> simp [List.getD, isContByte] <;> omega)

/-- The leading byte of one character's encoding is not a continuation
byte. -/
theorem utf8EncodeChar_head_not_cont (c : Char) :
    isContByte ((utf8EncodeChar c).getD 0 0) = false := by
  unfold utf8EncodeChar
  by_cases h1 : c.toNat < 128 <;> by_cases h2 : c.toNat < 2048 <;>
    by_cases h3 : c.toNat < 65536 <;>
      simp [h1, h2, h3, List.getD, isContByte] <;> omega

/-- When every byte at positions `1..m` is a continuation byte, the back-off
loop reaches position zero. -/
theorem backoffEnd_zero (buf : List ℕ) (m : ℕ)
    (h : ∀ j, 0 < j → j ≤ m → isContByte (buf.getD j 0) = true) :
    backoffEnd buf m = 0 := by
  induction m with
  | zero => rfl
  | succ m ih =>
    unfold backoffEnd
    rw [if_pos (h (m + 1) (by omega) (by omega))]
    exact ih (fun j hj0 hjm => h j hj0 (by omega))

/-- The back-off loop decomposes over a leading block when the byte right
after the block is not a continuation byte. -/
theorem backoffEnd_append (u v : List ℕ) (i : ℕ) (hu : 1 ≤ u.length)
    (hv : isContByte (v.getD 0 0) = false) :
    backoffEnd (u ++ v) (u.length + i) = u.length + backoffEnd v i := by
  induction i with
  | zero =>
    rcases hul : u.length with _ | n
    · omega
    · have hb : (u ++ v).getD (n + 1) 0 = v.getD 0 0 := by
        rw [List.getD_append_right _ _ _ _ (by omega)]
        rw [hul]
        simp
      simp only [backoffEnd, hb, hv]
      simp
  | succ i ih =>
    have hb : (u ++ v).getD (u.length + i + 1) 0 = v.getD (i + 1) 0 := by
      rw [List.getD_append_right _ _ _ _ (by omega)]
      congr 1
      omega
    rw [show u.length + (i + 1) = (u.length + i) + 1 by omega]
    simp only [backoffEnd, hb]
    by_cases hc : isContByte (v.getD (i + 1) 0) = true
    · rw [if_pos hc, if_pos hc, ih]
    · rw [if_neg hc, if_neg hc]
      omega

/-- The back-off loop always stops at a character boundary of a valid
encoding: the bytes it keeps are the encoding of a prefix of the string,
of byte length at most the requested cut. -/
theorem backoffEnd_boundary (s : JStr) (m : ℕ)
    (hm : m < (utf8Encode s).length) :
    ∃ p q, s = p ++ q ∧ backoffEnd (utf8Encode s) m = (utf8Encode p).length ∧
      (utf8Encode p).length ≤ m := by
  induction s generalizing m with
  | nil => simp [utf8Encode] at hm
  | cons c t ih =>
    have he : utf8Encode (c :: t) = utf8EncodeChar c ++ utf8Encode t := by
      simp [utf8Encode]
    by_cases hm2 : m < (utf8EncodeChar c).length
    · refine ⟨[], c :: t, rfl, ?_, by simp [utf8Encode]⟩
      rw [show utf8Encode ([] : JStr) = [] from by simp [utf8Encode]]
      simp only [List.length_nil]
      apply backoffEnd_zero
      intro j hj0 hjm
      rw [he, List.getD_append _ _ _ j (by omega)]
      exact utf8EncodeChar_cont c j hj0 (by omega)
    · have hit : m - (utf8EncodeChar c).length < (utf8Encode t).length := by
        rw [he, List.length_append] at hm
        omega
      rcases t with _ | ⟨c', t'⟩
      · simp [utf8Encode] at hit
      · have he2 : utf8Encode (c' :: t') = utf8EncodeChar c' ++ utf8Encode t' := by
          simp [utf8Encode]
        have hv : isContByte ((utf8Encode (c' :: t')).getD 0 0) = false := by
          rw [he2, List.getD_append _ _ _ 0 (utf8EncodeChar_length_pos c')]
          exact utf8EncodeChar_head_not_cont c'
        have hs := backoffEnd_append (utf8EncodeChar c) (utf8Encode (c' :: t'))
          (m - (utf8EncodeChar c).length) (utf8EncodeChar_length_pos c) hv
        obtain ⟨p', q', ht, hbe, hle⟩ := ih (m - (utf8EncodeChar c).length) hit
        have hpl : (utf8Encode (c :: p')).length =
            (utf8EncodeChar c).length + (utf8Encode p').length := by
          simp [utf8Encode]
        refine ⟨c :: p', q', by rw [ht]; rfl, ?_, by omega⟩
        rw [he, show m = (utf8EncodeChar c).length + (m - (utf8EncodeChar c).length)
          from by omega, hs, hbe, hpl]

/-- `utf8Truncate` returns a string prefix (so it cuts only at character
boundaries) whose UTF-8 form fits the byte budget. -/
theorem utf8Truncate_spec (t : JStr) (m : ℕ) :
    (utf8Encode (utf8Truncate t m)).length ≤ m ∧ utf8Truncate t m <+: t := by
  unfold utf8Truncate
  dsimp only
  by_cases h : (utf8Encode t).length ≤ m
  · rw [if_pos h]
    exact ⟨h, List.prefix_refl t⟩
  · rw [if_neg h]
    obtain ⟨p, q, hpq, hbe, hle⟩ := backoffEnd_boundary t m (by omega)
    rw [hbe]
    have htake : (utf8Encode t).take (utf8Encode p).length = utf8Encode p := by
      rw [hpq, utf8Encode_append, List.take_left]
    rw [htake, utf8Decode_encode]
    exact ⟨hle, by rw [hpq]; exact List.prefix_append p q⟩

/-! ## Claim C9 -/

/-- Counterexample to claim C9 as stated: with a configured maximum of
1 byte, the flattened name of base `ab` (path strategy, empty relative
directory) still encodes to 2 bytes, because the code truncates to
`Math.max(20, maxFilenameBytes)` — the configured maximum is clamped below
by 20. -/
theorem c9_truncation_cex :
    ¬ (utf8Encode (flatNameBase
        ⟨[], "ab".toList, ".jpg".toList, FlattenStrategy.path, "_".toList, 1⟩)).length ≤
      (⟨[], "ab".toList, ".jpg".toList, FlattenStrategy.path, "_".toList, 1⟩ :
        FlatNameArgs).maxBytes := by
  decide

/-- Claim C9, amended: for every flattened name, the sanitized name base is
truncated so that its UTF-8 encoding is at most `max(20, maxBytes)` bytes —
the configured maximum clamped below by 20, not the configured maximum
itself — the truncated string is a prefix of the sanitized name, and
truncation happens only at character boundaries (the result is a prefix at
character level, so no partial multi-byte character survives). -/
theorem c9_flat_name_truncation (a : FlatNameArgs) :
    makeFlatName a = flatNameBase a ++ a.outExt ∧
      (utf8Encode (flatNameBase a)).length ≤ Nat.max 20 a.maxBytes ∧
      flatNameBase a <+: sanitizeSeg (rawFlatName a) := by
  have h := utf8Truncate_spec (sanitizeSeg (rawFlatName a)) (Nat.max 20 a.maxBytes)
  exact ⟨rfl, h.1, h.2⟩

/-! ## Sanitizer and probing lemmas -/

/-- The sanitizer leaves a string of legal characters unchanged. -/
theorem sanitizeAux_of_legal (l : JStr)
    (h : ∀ c ∈ l, isIllegalChar c = false) : ∀ b, sanitizeAux b l = l := by
  induction l with
  | nil => intro b; rfl
  | cons c t ih =>
    intro b
    unfold sanitizeAux
    rw [if_neg (by simp [h c (by simp)])]
    rw [ih (fun x hx => h x (by simp [hx]))]

/-- The sanitizer leaves a string of legal characters unchanged. -/
theorem sanitizeSeg_of_legal (l : JStr)
    (h : ∀ c ∈ l, isIllegalChar c = false) : sanitizeSeg l = l :=
  sanitizeAux_of_legal l h false

/-- Hexadecimal digit characters are legal filename characters. -/
theorem hexDigitChar_legal (n : ℕ) (h : n < 16) :
    isIllegalChar (hexDigitChar n) = false := by
  interval_cases n <;> decide

/-- Bytes rendered big-endian are below 256. -/
theorem beBytes_lt (k n : ℕ) : ∀ b ∈ beBytes k n, b < 256 := by
  intro b hb
  unfold beBytes at hb
  obtain ⟨i, _, rfl⟩ := List.mem_map.mp hb
  omega

/-- SHA-1 digest bytes are below 256. -/
theorem sha1Bytes_lt (msg : List ℕ) : ∀ b ∈ sha1Bytes msg, b < 256 := by
  intro b hb
  unfold sha1Bytes at hb
  rcases (chunks64 (sha1Pad msg)).foldl sha1Block
    (1732584193, 4023233417, 2562383102, 271733878, 3285377520) with
    ⟨h0, h1, h2, h3, h4⟩
  simp only [List.mem_append] at hb
  rcases hb with ((((hb | hb) | hb) | hb) | hb) <;> exact beBytes_lt _ _ b hb

/-- Every character of a hex digest rendering is legal. -/
theorem bytesToHex_legal (bs : List ℕ) (hbs : ∀ b ∈ bs, b < 256) :
    ∀ c ∈ bytesToHex bs, isIllegalChar c = false := by
  intro c hc
  unfold bytesToHex at hc
  simp only [List.mem_flatten, List.mem_map] at hc
  obtain ⟨l, ⟨b, hb, rfl⟩, hcl⟩ := hc
  have hblt := hbs b hb
  simp only [List.mem_cons, List.mem_singleton, List.not_mem_nil, or_false] at hcl
  rcases hcl with rfl | rfl
  · exact hexDigitChar_legal _ (by omega)
  · exact hexDigitChar_legal _ (by omega)

/-- Every character of the 8-character hash suffix is legal. -/
theorem hash8_legal (relDir base : JStr) :
    ∀ c ∈ hash8 relDir base, isIllegalChar c = false := by
  intro c hc
  unfold hash8 sha1Hex at hc
  exact bytesToHex_legal _ (sha1Bytes_lt _) c (List.take_subset 8 _ hc)

/-- The probe loop returns the first unused candidate, given enough fuel. -/
theorem uniquifyAux_first_unused (fs : DiskFs) (destDir stem ext : JStr) :
    ∀ fuel i k, i ≤ k → k < i + fuel →
      fsHas fs (pathJoin destDir (probeName stem ext k)) = false →
      (∀ j, i ≤ j → j < k →
        fsHas fs (pathJoin destDir (probeName stem ext j)) = true) →
      uniquifyAux fs destDir stem ext fuel i =
        some (pathJoin destDir (probeName stem ext k)) := by
  intro fuel
  induction fuel with
  | zero => intro i k hik hk _ _; omega
  | succ fuel ih =>
    intro i k hik hk hfree htaken
    unfold uniquifyAux
    by_cases hieq : i = k
    · subst hieq
      rw [if_neg (by simp [hfree])]
    · rw [if_pos (htaken i (le_refl i) (by omega))]
      exact ih (i + 1) k (by omega) (by omega) hfree
        (fun j hj1 hj2 => htaken j (by omega) hj2)

/-- A string already within the byte budget is left unchanged. -/
theorem utf8Truncate_of_le (s : JStr) (m : ℕ)
    (h : (utf8Encode s).length ≤ m) : utf8Truncate s m = s := by
  unfold utf8Truncate
  dsimp only
  rw [if_pos h]

/-! ## Claim C8 -/

set_option maxRecDepth 100000 in
/-- Claim C8: in flatten mode with the hash strategy the destination
filename is `base~h.ext`, where `h` is the first 8 hex characters of the
digest of `relativeDir + "/" + base` (for a base of legal filename
characters whose result fits the byte budget, so that sanitization and
truncation leave it unchanged); the inputs `a/x.jpg` and `b/x.jpg` produce
distinct destination names; and when the computed destination exists,
sequential probing `stem~1.ext`, `stem~2.ext`, … returns the first unused
path. -/
theorem c8_hash_flatten_naming :
    (∀ relDir base outExt sep maxB,
        (∀ c ∈ base, isIllegalChar c = false) →
        (utf8Encode (base ++ '~' :: hash8 relDir base)).length ≤ Nat.max 20 maxB →
        makeFlatName ⟨relDir, base, outExt, FlattenStrategy.hash, sep, maxB⟩ =
          (base ++ '~' :: hash8 relDir base) ++ outExt) ∧
    makeFlatName ⟨"a".toList, "x".toList, ".jpg".toList, FlattenStrategy.hash,
        "_".toList, 200⟩ ≠
      makeFlatName ⟨"b".toList, "x".toList, ".jpg".toList, FlattenStrategy.hash,
        "_".toList, 200⟩ ∧
    (∀ fs destDir filename stem ext k fuel,
        stemAndExt filename = (stem, ext) →
        fsHas fs (pathJoin destDir filename) = true →
        1 ≤ k → k ≤ fuel →
        fsHas fs (pathJoin destDir (probeName stem ext k)) = false →
        (∀ j, 1 ≤ j → j < k →
          fsHas fs (pathJoin destDir (probeName stem ext j)) = true) →
        uniquify fs destDir filename fuel =
          some (pathJoin destDir (probeName stem ext k))) := by
  refine ⟨?_, ?_, ?_⟩
  · intro relDir base outExt sep maxB hleg hlen
    unfold makeFlatName flatNameBase rawFlatName
    dsimp only
    have hsan : sanitizeSeg (base ++ '~' :: hash8 relDir base) =
        base ++ '~' :: hash8 relDir base := by
      apply sanitizeSeg_of_legal
      intro c hc
      rcases List.mem_append.mp hc with hc | hc
      · exact hleg c hc
      · rcases List.mem_cons.mp hc with rfl | hc
        · decide
        · exact hash8_legal relDir base c hc
    rw [hsan, utf8Truncate_of_le _ _ hlen]
  · decide
  · intro fs destDir filename stem ext k fuel hse hex h1k hkf hfree htaken
    unfold uniquify
    rw [hse]
    dsimp only
    rw [if_pos hex]
    exact uniquifyAux_first_unused fs destDir stem ext fuel 1 k h1k (by omega)
      hfree (fun j hj1 hj2 => htaken j hj1 hj2)

set_option maxRecDepth 100000 in
/-- Witness for C8: the hash-name equation at `relDir = a`, `base = x`, and
the collision probe over a directory holding `x.jpg` and `x~1.jpg`. -/
theorem c8_hash_flatten_naming_witness :
    makeFlatName ⟨"a".toList, "x".toList, ".jpg".toList, FlattenStrategy.hash,
        "_".toList, 200⟩ =
      ("x".toList ++ '~' :: hash8 "a".toList "x".toList) ++ ".jpg".toList ∧
    uniquify ⟨["d/x.jpg".toList, "d/x~1.jpg".toList]⟩ "d".toList
        "x.jpg".toList 3 =
      some (pathJoin "d".toList (probeName "x".toList ".jpg".toList 2)) :=
  ⟨c8_hash_flatten_naming.1 "a".toList "x".toList ".jpg".toList "_".toList 200
      (by decide) (by decide),
    c8_hash_flatten_naming.2.2 ⟨["d/x.jpg".toList, "d/x~1.jpg".toList]⟩
      "d".toList "x.jpg".toList "x".toList ".jpg".toList 2 3 (by decide)
      (by decide) (by decide) (by decide) (by decide)
      (fun j hj1 hj2 => by
        have hj : j = 1 := by omega
        subst hj
        decide)⟩

end BatchResizer
